import Mathlib

/-!
# MagneticEncoder.cpp: the AS5047D magnetic rotary encoder driver

A shallow embedding of `encoder_setup()` and `encoder_read()` from
`Gcode-Mechaduino-Rewrite/MagneticEncoder.cpp`.

The driver talks to the outside world through the Arduino pin functions and the
`SPI` object.  Those calls are embedded as functions on an explicit `State`
which records the chip-select pin, the bus, the bytes the sensor is going to
answer with, and the trace of every platform call made so far.

Machine integers are naturals with explicit reductions: a `byte` is reduced
modulo `2^8`, the promoted `int` (4 bytes on the SAMD21) is kept as its bit
pattern modulo `2^32`, and the `uint16_t` result is reduced modulo `2^16`.
-/

namespace MagneticEncoder

/-! ## Data model -/

/-- Logic level of a digital line. -/
inductive Level where
  | low
  | high
  deriving DecidableEq, Repr

/-- Direction of a digital pin. -/
inductive PinMode where
  | input
  | output
  deriving DecidableEq, Repr

/-- Bit order argument of `SPISettings`. -/
inductive BitOrder where
  | lsbFirst
  | msbFirst
  deriving DecidableEq, Repr

/-- The record built by `SPISettings encoder(SPI_SPEED, MSBFIRST, SPI_MODE1)`:
clock, bit order and SPI data mode number. -/
structure SPISettings where
  clock : Nat
  bitOrder : BitOrder
  dataMode : Nat
  deriving DecidableEq, Repr

/-- One call into the platform layer (Arduino pin functions and the `SPI` object).
`endTransaction` and `spiEnd` are the calls `SPI.endTransaction()` and `SPI.end()`,
which the platform offers and the driver never makes.  A `transfer` records the byte
clocked out and the chip-select level the line had while the byte was clocked. -/
inductive Event where
  | pinModeOutput (pin : Nat)
  | spiBegin
  | delay (ms : Nat)
  | beginTransaction (settings : SPISettings)
  | endTransaction
  | spiEnd
  | csWrite (level : Level)
  | transfer (tx : Nat) (cs : Level)
  deriving DecidableEq, Repr

/-- What `MagneticEncoder.h` and the board supply to the driver.  The header is not part
of the sources, so its constants `CS_PIN`, `SPI_SPEED` and `SPI_PAUSE` are parameters.
`outputLevel` is the platform's `pinMode(pin, OUTPUT)`: the level the line takes once it
is an output, as a function of the level held by the pin before. -/
structure Board where
  CS_PIN : Nat
  SPI_SPEED : Nat
  SPI_PAUSE : Nat
  outputLevel : Level → Level

/-- The world as seen by the driver.
* `csMode`, `csLevel`: direction and level of the chip-select pin;
* `busBegun`: `SPI.begin()` has been called;
* `session`: the settings of the open SPI transaction, `none` when no transaction is open;
* `rx`: the byte the sensor answers on the `n`-th transfer (reduced to a `byte` on receipt);
* `xfers`: number of transfers done so far;
* `trace`: every platform call made so far, oldest first. -/
structure State where
  csMode : PinMode
  csLevel : Level
  busBegun : Bool
  session : Option SPISettings
  rx : Nat → Nat
  xfers : Nat
  trace : List Event

/-! ## Platform calls -/

/-- The call `pinMode(CS_PIN, OUTPUT)`. -/
def pinMode_OUTPUT (bd : Board) (s : State) : State :=
  { s with
    csMode := PinMode.output
    csLevel := bd.outputLevel s.csLevel
    trace := s.trace ++ [Event.pinModeOutput bd.CS_PIN] }

/-- The call `SPI.begin()`. -/
def SPI_begin (s : State) : State :=
  { s with busBegun := true, trace := s.trace ++ [Event.spiBegin] }

/-- The call `delay(ms)`. -/
def delay (ms : Nat) (s : State) : State :=
  { s with trace := s.trace ++ [Event.delay ms] }

/-- The call `SPI.beginTransaction(settings)`. -/
def SPI_beginTransaction (settings : SPISettings) (s : State) : State :=
  { s with session := some settings, trace := s.trace ++ [Event.beginTransaction settings] }

/-- The call `SPI.transfer(tx)`: clocks one byte out and returns the byte clocked in. -/
def SPI_transfer (tx : Nat) (s : State) : Nat × State :=
  (s.rx s.xfers % 2 ^ 8,
   { s with xfers := s.xfers + 1, trace := s.trace ++ [Event.transfer tx s.csLevel] })

/-- Modelled from the spec: the macro `CHIPSELECT_LOW()` of `MagneticEncoder.h`, which is not
among the sources; the spec has it assert the chip-select line to its active (low) level. -/
def CHIPSELECT_LOW (s : State) : State :=
  { s with csLevel := Level.low, trace := s.trace ++ [Event.csWrite Level.low] }

/-- Modelled from the spec: the macro `CHIPSELECT_HIGH()` of `MagneticEncoder.h`, which is not
among the sources; the spec has it deassert the chip-select line to its inactive (high) level. -/
def CHIPSELECT_HIGH (s : State) : State :=
  { s with csLevel := Level.high, trace := s.trace ++ [Event.csWrite Level.high] }

/-! ## The driver -/

/-- The expression `(b1 << 8) | b2`: both bytes are promoted to the 32-bit `int`. -/
def promoted (b1 b2 : Nat) : Nat :=
  ((b1 <<< 8) % 2 ^ 32) ||| b2

/-- The assignment `angleTemp = (((b1 << 8) | b2) & 0B0011111111111111)` to a `uint16_t`. -/
def angleTemp (b1 b2 : Nat) : Nat :=
  (promoted b1 b2 &&& 0x3FFF) % 2 ^ 16

/-- The function `encoder_setup()`. -/
def encoder_setup (bd : Board) (s : State) : State :=
  let s1 := pinMode_OUTPUT bd s
  let encoder : SPISettings := ⟨bd.SPI_SPEED, BitOrder.msbFirst, 1⟩
  let s2 := SPI_begin s1
  let s3 := delay bd.SPI_PAUSE s2
  SPI_beginTransaction encoder s3

/-- The function `encoder_read()`: the value returned and the state left behind. -/
def encoder_read (s : State) : Nat × State :=
  let s1 := CHIPSELECT_LOW s
  let r1 := SPI_transfer 0xFF s1
  let b1 := r1.1
  let r2 := SPI_transfer 0xFF r1.2
  let b2 := r2.1
  let angle := angleTemp b1 b2
  let s4 := CHIPSELECT_HIGH r2.2
  (angle, s4)

/-- State after `n` consecutive `encoder_read()` calls (the values read are dropped). -/
def reads : Nat → State → State
  | 0, s => s
  | n + 1, s => reads n (encoder_read s).2

/-- The events a run from `s` to `t` added to the trace. -/
def emitted (s t : State) : List Event :=
  t.trace.drop s.trace.length

/-- The chip-select writes in a list of events, in order. -/
def csWrites : List Event → List Level
  | [] => []
  | Event.csWrite l :: es => l :: csWrites es
  | _ :: es => csWrites es

/-- Number of `SPI.beginTransaction` calls in a list of events. -/
def countBegin : List Event → Nat
  | [] => 0
  | Event.beginTransaction _ :: es => countBegin es + 1
  | _ :: es => countBegin es

/-- Number of `SPI.endTransaction` and `SPI.end` calls in a list of events. -/
def countClose : List Event → Nat
  | [] => 0
  | Event.endTransaction :: es => countClose es + 1
  | Event.spiEnd :: es => countClose es + 1
  | _ :: es => countClose es

/-- The sensor that answers `b1` on transfer `0`, `b2` on transfer `1`, and `0` afterwards. -/
def respond (b1 b2 : Nat) : Nat → Nat
  | 0 => b1
  | 1 => b2
  | _ => 0

/-- A state before any driver activity: chip-select still an input at level `l`,
bus not begun, no transaction, empty trace, sensor answering `rx`. -/
def powerOn (l : Level) (rx : Nat → Nat) : State :=
  { csMode := PinMode.input
    csLevel := l
    busBegun := false
    session := none
    rx := rx
    xfers := 0
    trace := [] }

/-- A board whose `pinMode(pin, OUTPUT)` only switches the direction and keeps the level of
the pin's output latch (pin 6, 10 MHz clock, 1000 ms pause). -/
def latchBoard : Board :=
  { CS_PIN := 6, SPI_SPEED := 10000000, SPI_PAUSE := 1000, outputLevel := fun l => l }

/-- The value `encoder_read()` returns when the sensor answers the two transfers of the call
with the bytes `b1` and `b2`. -/
def readOn (b1 b2 : Nat) : Nat :=
  (encoder_read (powerOn Level.high (respond b1 b2))).1

/-- The platform calls of one read frame: chip-select low, two transfers of the filler byte
`0xFF` made while chip-select is low, chip-select high. -/
def frame : List Event :=
  [Event.csWrite Level.low, Event.transfer 0xFF Level.low, Event.transfer 0xFF Level.low,
   Event.csWrite Level.high]

/-- The platform calls of `n` read frames in a row. -/
def frames : Nat → List Event
  | 0 => []
  | n + 1 => frames n ++ frame

/-- The level of the `i`-th write of a line that alternates, starting low. -/
def alternate (i : Nat) : Level :=
  if i % 2 = 0 then Level.low else Level.high

/-! ## Arithmetic of the byte assembly -/

theorem promoted_eq (b1 b2 : Nat) (h1 : b1 < 256) (h2 : b2 < 256) :
    promoted b1 b2 = b1 * 256 + b2 := by
  unfold promoted
  have hs : b1 <<< 8 = 2 ^ 8 * b1 := by rw [Nat.shiftLeft_eq]; ring
  have hlt : 2 ^ 8 * b1 < 2 ^ 32 := by norm_num; omega
  rw [hs, Nat.mod_eq_of_lt hlt, ← Nat.mul_add_lt_is_or (by norm_num; exact h2) b1]
  ring

theorem mask_eq_mod (x : Nat) : x &&& 0x3FFF = x % 16384 := by
  have h := Nat.and_pow_two_sub_one_eq_mod x 14
  norm_num at h
  exact h

theorem angleTemp_eq (b1 b2 : Nat) (h1 : b1 < 256) (h2 : b2 < 256) :
    angleTemp b1 b2 = (b1 * 256 + b2) % 16384 := by
  unfold angleTemp
  rw [promoted_eq b1 b2 h1 h2, mask_eq_mod]
  norm_num
  omega

theorem encoder_read_value (s : State) :
    (encoder_read s).1 = angleTemp (s.rx s.xfers % 256) (s.rx (s.xfers + 1) % 256) := by
  simp [encoder_read, SPI_transfer, CHIPSELECT_LOW]

theorem shift_or_eq (b1 b2 : Nat) (h2 : b2 < 256) : (b1 <<< 8) ||| b2 = b1 * 256 + b2 := by
  have hs : b1 <<< 8 = 2 ^ 8 * b1 := by rw [Nat.shiftLeft_eq]; ring
  rw [hs, ← Nat.mul_add_lt_is_or (by norm_num; exact h2) b1]
  ring

theorem readOn_eq (b1 b2 : Nat) : readOn b1 b2 = angleTemp (b1 % 256) (b2 % 256) := by
  simp [readOn, encoder_read_value, powerOn, respond]

/-! ## The value returned by `encoder_read()` -/

/-- C1: when the first and second transfer of one `encoder_read()` call return the bytes
`b1` and `b2` (each in [0, 255]), the call returns `((b1 << 8) | b2) & 0x3FFF`, where
`(b1 << 8) | b2` is the 16-bit word `b1 * 256 + b2` with `b1` as its high-order byte. -/
theorem encoder_read_masked_word (s : State) (b1 b2 : Nat) (h1 : b1 < 256) (h2 : b2 < 256)
    (hr1 : s.rx s.xfers = b1) (hr2 : s.rx (s.xfers + 1) = b2) :
    (encoder_read s).1 = ((b1 <<< 8) ||| b2) &&& 0x3FFF ∧
      (b1 <<< 8) ||| b2 = b1 * 256 + b2 ∧
      ((b1 <<< 8) ||| b2) / 256 = b1 ∧ ((b1 <<< 8) ||| b2) % 256 = b2 := by
  have hw := shift_or_eq b1 b2 h2
  refine ⟨?_, hw, ?_, ?_⟩
  · rw [encoder_read_value, hr1, hr2, Nat.mod_eq_of_lt h1, Nat.mod_eq_of_lt h2,
      angleTemp_eq b1 b2 h1 h2, hw, mask_eq_mod]
  · rw [hw]; omega
  · rw [hw]; omega

/-- C1, the three responses named by the claim: `(0xFF, 0xFF)` reads `0x3FFF`, `(0x00, 0x00)`
reads `0`, and `(0x3F, 0xFF)` reads `0x3FFF`. -/
theorem encoder_read_masked_word_witness :
    (encoder_read (powerOn Level.high (respond 0xFF 0xFF))).1 = 0x3FFF ∧
      (encoder_read (powerOn Level.high (respond 0x00 0x00))).1 = 0 ∧
      (encoder_read (powerOn Level.high (respond 0x3F 0xFF))).1 = 0x3FFF :=
  ⟨(encoder_read_masked_word (powerOn Level.high (respond 0xFF 0xFF)) 0xFF 0xFF
      (by decide) (by decide) rfl rfl).1.trans (by decide),
   (encoder_read_masked_word (powerOn Level.high (respond 0x00 0x00)) 0x00 0x00
      (by decide) (by decide) rfl rfl).1.trans (by decide),
   (encoder_read_masked_word (powerOn Level.high (respond 0x3F 0xFF)) 0x3F 0xFF
      (by decide) (by decide) rfl rfl).1.trans (by decide)⟩

/-- C2: whatever bytes the sensor answers with, the value returned by `encoder_read()` lies
in the closed range [0, 16383]. -/
theorem encoder_read_range (s : State) :
    0 ≤ (encoder_read s).1 ∧ (encoder_read s).1 ≤ 16383 := by
  refine ⟨Nat.zero_le _, ?_⟩
  rw [encoder_read_value]
  unfold angleTemp
  rw [mask_eq_mod]
  have h : promoted (s.rx s.xfers % 256) (s.rx (s.xfers + 1) % 256) % 16384 < 16384 :=
    Nat.mod_lt _ (by norm_num)
  have h16 : (2 : Nat) ^ 16 = 65536 := by norm_num
  rw [h16]
  omega

/-- C3: the two status bits never influence the reading.  If two calls receive first bytes
`b1` and `b1'` that agree on their low six bits (`b1 & 0x3F = b1' & 0x3F`) and the same
second byte `b2`, both calls return the same value. -/
theorem encoder_read_ignores_status_bits (s t : State) (b1 b1' b2 : Nat)
    (h1 : b1 < 256) (h1' : b1' < 256) (h2 : b2 < 256)
    (hs1 : s.rx s.xfers = b1) (hs2 : s.rx (s.xfers + 1) = b2)
    (ht1 : t.rx t.xfers = b1') (ht2 : t.rx (t.xfers + 1) = b2)
    (hm : b1 &&& 0x3F = b1' &&& 0x3F) :
    (encoder_read s).1 = (encoder_read t).1 := by
  have e := Nat.and_pow_two_sub_one_eq_mod b1 6
  have e' := Nat.and_pow_two_sub_one_eq_mod b1' 6
  norm_num at e e'
  rw [e, e'] at hm
  rw [encoder_read_value, encoder_read_value, hs1, hs2, ht1, ht2, Nat.mod_eq_of_lt h1,
    Nat.mod_eq_of_lt h1', Nat.mod_eq_of_lt h2, angleTemp_eq b1 b2 h1 h2,
    angleTemp_eq b1' b2 h1' h2]
  omega

/-- C3, the response named by the claim: `(0xC0, 0x00)` reads `0`, the same as `(0x00, 0x00)`. -/
theorem encoder_read_ignores_status_bits_witness :
    (encoder_read (powerOn Level.high (respond 0xC0 0x00))).1
        = (encoder_read (powerOn Level.high (respond 0x00 0x00))).1 ∧
      (encoder_read (powerOn Level.high (respond 0xC0 0x00))).1 = 0 :=
  ⟨encoder_read_ignores_status_bits (powerOn Level.high (respond 0xC0 0x00))
      (powerOn Level.high (respond 0x00 0x00)) 0xC0 0x00 0x00
      (by decide) (by decide) (by decide) rfl rfl rfl rfl (by decide),
   by decide⟩

theorem readOn_eq_iff (p b1 b2 : Nat) (hp : p < 16384) (h1 : b1 < 256) (h2 : b2 < 256) :
    readOn b1 b2 = p ↔ b1 % 64 = p / 256 ∧ b2 = p % 256 := by
  rw [readOn_eq, Nat.mod_eq_of_lt h1, Nat.mod_eq_of_lt h2, angleTemp_eq b1 b2 h1 h2]
  omega

theorem responses_reading (p : Nat) (hp : p < 16384) :
    (Finset.range 256 ×ˢ Finset.range 256).filter (fun b => readOn b.1 b.2 = p)
      = (Finset.range 4).image (fun s => (s * 64 + p / 256, p % 256)) := by
  ext ⟨b1, b2⟩
  simp only [Finset.mem_filter, Finset.mem_product, Finset.mem_range, Finset.mem_image,
    Prod.mk.injEq]
  constructor
  · rintro ⟨⟨h1, h2⟩, h⟩
    rw [readOn_eq_iff p b1 b2 hp h1 h2] at h
    refine ⟨b1 / 64, by omega, by omega, by omega⟩
  · rintro ⟨s, hs, hb1, hb2⟩
    have h1 : b1 < 256 := by omega
    have h2 : b2 < 256 := by omega
    refine ⟨⟨h1, h2⟩, ?_⟩
    rw [readOn_eq_iff p b1 b2 hp h1 h2]
    omega

/-- C9: the masking loses no position bit.  For a position `p` in [0, 16383] and status bits
`s` in [0, 3], a call whose transfers return `b1 = s * 64 + p / 256` and `b2 = p mod 256`
(the word `s * 16384 + p`, most-significant byte first) returns exactly `p`; and exactly four
of the 65536 byte pairs make `encoder_read()` return `p`. -/
theorem encoder_read_recovers_position (st : State) (p s : Nat) (hp : p < 16384) (hs : s < 4)
    (hr1 : st.rx st.xfers = s * 64 + p / 256) (hr2 : st.rx (st.xfers + 1) = p % 256) :
    (s * 64 + p / 256) * 256 + p % 256 = s * 16384 + p ∧
      (encoder_read st).1 = p ∧
      ((Finset.range 256 ×ˢ Finset.range 256).filter (fun b => readOn b.1 b.2 = p)).card = 4 := by
  refine ⟨by omega, ?_, ?_⟩
  · have h1 : s * 64 + p / 256 < 256 := by omega
    have h2 : p % 256 < 256 := by omega
    rw [encoder_read_value, hr1, hr2, Nat.mod_eq_of_lt h1, Nat.mod_eq_of_lt h2,
      angleTemp_eq _ _ h1 h2]
    omega
  · rw [responses_reading p hp, Finset.card_image_of_injective]
    · simp
    · intro a b hab
      simp only [Prod.mk.injEq] at hab
      omega

/-- C9 at position `0x1234` with both status bits set: the bytes `(0xD2, 0x34)` read `0x1234`. -/
theorem encoder_read_recovers_position_witness :
    (encoder_read (powerOn Level.high (respond 0xD2 0x34))).1 = 0x1234 ∧
      ((Finset.range 256 ×ˢ Finset.range 256).filter
        (fun b => readOn b.1 b.2 = 0x1234)).card = 4 :=
  (encoder_read_recovers_position (powerOn Level.high (respond 0xD2 0x34)) 0x1234 3
    (by decide) (by decide) rfl rfl).2

/-- C10: the arithmetic of `encoder_read()` neither overflows the 32-bit `int` nor is cut by
the conversion to `uint16_t`.  For bytes `b1`, `b2` in [0, 255] the shift `b1 << 8` is not
reduced by the 32-bit width, the promoted intermediate `(b1 << 8) | b2` lies in [0, 65535]
(below `2^31`, so it is a non-negative `int`), and the value stored in the `uint16_t` equals
`((b1 << 8) | b2) & 0x3FFF` computed over unbounded integers. -/
theorem angleTemp_no_overflow (b1 b2 : Nat) (h1 : b1 < 256) (h2 : b2 < 256) :
    (b1 <<< 8) % 2 ^ 32 = b1 <<< 8 ∧
      promoted b1 b2 = (b1 <<< 8) ||| b2 ∧
      promoted b1 b2 ≤ 65535 ∧ promoted b1 b2 < 2 ^ 31 ∧
      (promoted b1 b2 &&& 0x3FFF) % 2 ^ 16 = promoted b1 b2 &&& 0x3FFF ∧
      angleTemp b1 b2 = ((b1 <<< 8) ||| b2) &&& 0x3FFF := by
  have hp := promoted_eq b1 b2 h1 h2
  have hw := shift_or_eq b1 b2 h2
  have hs : b1 <<< 8 = b1 * 256 := by rw [Nat.shiftLeft_eq]
  have ha := angleTemp_eq b1 b2 h1 h2
  have h31 : (2 : Nat) ^ 31 = 2147483648 := by norm_num
  have h32 : (2 : Nat) ^ 32 = 4294967296 := by norm_num
  have h16 : (2 : Nat) ^ 16 = 65536 := by norm_num
  refine ⟨?_, ?_, ?_, ?_, ?_, ?_⟩
  · rw [hs, h32]; omega
  · rw [hp, hw]
  · rw [hp]; omega
  · rw [hp, h31]; omega
  · rw [mask_eq_mod, hp, h16]; omega
  · rw [ha, hw, mask_eq_mod]

/-- C10 at the all-ones response: `(0xFF << 8) | 0xFF` is `65535` and the result is `0x3FFF`. -/
theorem angleTemp_no_overflow_witness :
    promoted 0xFF 0xFF ≤ 65535 ∧ angleTemp 0xFF 0xFF = ((0xFF <<< 8) ||| 0xFF) &&& 0x3FFF :=
  ⟨(angleTemp_no_overflow 0xFF 0xFF (by decide) (by decide)).2.2.1,
   (angleTemp_no_overflow 0xFF 0xFF (by decide) (by decide)).2.2.2.2.2⟩

/-! ## Traces -/

theorem emitted_of_append (s t : State) (evs : List Event) (h : t.trace = s.trace ++ evs) :
    emitted s t = evs := by
  unfold emitted
  rw [h]
  exact List.drop_left _ _

theorem csWrites_append (xs ys : List Event) : csWrites (xs ++ ys) = csWrites xs ++ csWrites ys := by
  induction xs with
  | nil => rfl
  | cons e es ih => cases e <;> simp [csWrites, ih]

theorem countBegin_append (xs ys : List Event) :
    countBegin (xs ++ ys) = countBegin xs + countBegin ys := by
  induction xs with
  | nil => simp [countBegin]
  | cons e es ih =>
    cases e <;> simp [countBegin, ih]
    omega

theorem countClose_append (xs ys : List Event) :
    countClose (xs ++ ys) = countClose xs + countClose ys := by
  induction xs with
  | nil => simp [countClose]
  | cons e es ih => cases e <;> simp [countClose, ih] <;> omega

theorem encoder_read_trace (s : State) : (encoder_read s).2.trace = s.trace ++ frame := by
  simp [encoder_read, SPI_transfer, CHIPSELECT_LOW, CHIPSELECT_HIGH, frame]

theorem encoder_read_csLevel (s : State) : (encoder_read s).2.csLevel = Level.high := rfl

theorem encoder_read_session (s : State) : (encoder_read s).2.session = s.session := rfl

theorem encoder_setup_trace (bd : Board) (s : State) :
    (encoder_setup bd s).trace = s.trace ++
      [Event.pinModeOutput bd.CS_PIN, Event.spiBegin, Event.delay bd.SPI_PAUSE,
       Event.beginTransaction ⟨bd.SPI_SPEED, BitOrder.msbFirst, 1⟩] := by
  simp [encoder_setup, pinMode_OUTPUT, SPI_begin, delay, SPI_beginTransaction]

theorem reads_succ_last (n : Nat) (s : State) :
    reads (n + 1) s = (encoder_read (reads n s)).2 := by
  induction n generalizing s with
  | zero => rfl
  | succ k ih =>
    show reads (k + 1) (encoder_read s).2 = _
    rw [ih]
    rfl

theorem reads_trace (n : Nat) (s : State) : (reads n s).trace = s.trace ++ frames n := by
  induction n with
  | zero => simp [reads, frames]
  | succ k ih => rw [reads_succ_last, encoder_read_trace, ih, frames, List.append_assoc]

theorem reads_session (n : Nat) (s : State) : (reads n s).session = s.session := by
  induction n with
  | zero => rfl
  | succ k ih => rw [reads_succ_last, encoder_read_session, ih]

theorem csWrites_frames (n : Nat) : csWrites (frames n) = (List.range (2 * n)).map alternate := by
  induction n with
  | zero => rfl
  | succ k ih =>
    have e : 2 * (k + 1) = 2 * k + 1 + 1 := by ring
    have h0 : alternate (2 * k) = Level.low := by simp [alternate]
    have h1 : alternate (2 * k + 1) = Level.high := by
      have : (2 * k + 1) % 2 = 1 := by omega
      simp [alternate, this]
    rw [frames, csWrites_append, ih, e, List.range_succ, List.range_succ]
    simp [h0, h1, frame, csWrites]

theorem countBegin_frames (n : Nat) : countBegin (frames n) = 0 := by
  induction n with
  | zero => rfl
  | succ k ih => rw [frames, countBegin_append, ih]; rfl

theorem countClose_frames (n : Nat) : countClose (frames n) = 0 := by
  induction n with
  | zero => rfl
  | succ k ih => rw [frames, countClose_append, ih]; rfl

/-! ## Chip-select framing and the bus session -/

/-- C4: with `CHIPSELECT_LOW()` and `CHIPSELECT_HIGH()` driving the chip-select line low and
high, the platform calls of one `encoder_read()` call are, whatever the sensor answers,
exactly: chip-select low, a transfer sending `0xFF`, a second transfer sending `0xFF`,
chip-select high; both transfers happen while chip-select is low. -/
theorem encoder_read_frame (s : State) :
    emitted s (encoder_read s).2 =
      [Event.csWrite Level.low, Event.transfer 0xFF Level.low, Event.transfer 0xFF Level.low,
       Event.csWrite Level.high] :=
  emitted_of_append s _ _ (encoder_read_trace s)

/-- C5: `n` consecutive `encoder_read()` calls write the chip-select line exactly `2 * n`
times, the `i`-th write (counting from 0) being low for even `i` and high for odd `i`, and
after one more call, so after any positive number of calls, the line is high. -/
theorem reads_chip_select (n : Nat) (s : State) :
    (csWrites (emitted s (reads n s))).length = 2 * n ∧
      csWrites (emitted s (reads n s)) = (List.range (2 * n)).map alternate ∧
      (reads (n + 1) s).csLevel = Level.high := by
  have he := emitted_of_append s _ _ (reads_trace n s)
  refine ⟨?_, ?_, ?_⟩
  · rw [he, csWrites_frames]; simp
  · rw [he, csWrites_frames]
  · rw [reads_succ_last, encoder_read_csLevel]

/-- C6 fails: on a board whose `pinMode(pin, OUTPUT)` keeps the level of the pin, starting
with the chip-select pin low, the line is still low after `encoder_setup()`, not high. -/
theorem encoder_setup_leaves_chip_select_low :
    (encoder_setup latchBoard (powerOn Level.low (respond 0 0))).csLevel = Level.low ∧
      (encoder_setup latchBoard (powerOn Level.low (respond 0 0))).csLevel ≠ Level.high := by
  decide

/-- C6 as amended: `encoder_setup()` makes no chip-select write; from any starting state the
chip-select level it leaves is the one the platform's `pinMode(CS_PIN, OUTPUT)` gives the line
from the level the pin held before, and the pin is left as an output. -/
theorem encoder_setup_chip_select (bd : Board) (s : State) :
    csWrites (emitted s (encoder_setup bd s)) = [] ∧
      (encoder_setup bd s).csLevel = bd.outputLevel s.csLevel ∧
      (encoder_setup bd s).csMode = PinMode.output := by
  refine ⟨?_, rfl, rfl⟩
  rw [emitted_of_append s _ _ (encoder_setup_trace bd s)]
  rfl

/-- C7: the platform calls of `encoder_setup()` are exactly, in this order: chip-select pin to
output, `SPI.begin()`, `delay(SPI_PAUSE)`, `SPI.beginTransaction` with the settings
`(SPI_SPEED, MSBFIRST, SPI_MODE1)`. -/
theorem encoder_setup_calls (bd : Board) (s : State) :
    emitted s (encoder_setup bd s) =
      [Event.pinModeOutput bd.CS_PIN, Event.spiBegin, Event.delay bd.SPI_PAUSE,
       Event.beginTransaction ⟨bd.SPI_SPEED, BitOrder.msbFirst, 1⟩] :=
  emitted_of_append s _ _ (encoder_setup_trace bd s)

/-- C8: after `encoder_setup()` followed by any number `n` of `encoder_read()` calls the
transaction is open under the settings of the setup, the calls made since the start of the
setup hold exactly one `SPI.beginTransaction` and no `SPI.endTransaction` or `SPI.end`, and
`encoder_read()` leaves the session as it found it. -/
theorem session_never_closed (bd : Board) (s : State) (n : Nat) :
    (reads n (encoder_setup bd s)).session = some ⟨bd.SPI_SPEED, BitOrder.msbFirst, 1⟩ ∧
      countBegin (emitted s (reads n (encoder_setup bd s))) = 1 ∧
      countClose (emitted s (reads n (encoder_setup bd s))) = 0 ∧
      ∀ t : State, (encoder_read t).2.session = t.session := by
  have ht : (reads n (encoder_setup bd s)).trace = s.trace ++
      ([Event.pinModeOutput bd.CS_PIN, Event.spiBegin, Event.delay bd.SPI_PAUSE,
        Event.beginTransaction ⟨bd.SPI_SPEED, BitOrder.msbFirst, 1⟩] ++ frames n) := by
    rw [reads_trace, encoder_setup_trace, List.append_assoc]
  have he := emitted_of_append s _ _ ht
  refine ⟨?_, ?_, ?_, encoder_read_session⟩
  · rw [reads_session]; rfl
  · rw [he, countBegin_append, countBegin_frames]; rfl
  · rw [he, countClose_append, countClose_frames]; rfl

end MagneticEncoder
